import Mathlib

/-!
Verification of the MITMqtt core (src/core/mqtt_handler.cpp, .hpp).

The development shallowly embeds the MQTT packet codec, the capture store,
the plain and TLS connection relay loops, and the handler control surface
(stop, injectPacket, replayPacket) as executable Lean functions over lists
of bytes (Nat), and proves or refutes the frozen specification claims about
them. Stateful asynchronous code is modelled as explicit state machines
driven by event traces; each transition transcribes the body of the
corresponding completion handler.
-/

namespace mitmqtt

/-- Packet type code CONNECT = 1 from the PacketType enum in
mqtt_handler.hpp. The C++ enum has underlying type uint8_t and
fromRawData stores the raw high nibble cast into it, so the model carries
packet types as plain Nat nibbles. -/
def PacketType.CONNECT : Nat := 1

/-- Packet type code PUBLISH = 3 from the PacketType enum in mqtt_handler.hpp. -/
def PacketType.PUBLISH : Nat := 3

/-- The MQTTPacket class of mqtt_handler.hpp. Bytes are modelled as Nat
(the C++ fields are uint8_t vectors and std::string, kept below 256 by the
socket layer). The field defaults transcribe the C++ default constructor:
type = CONNECT, qos 0, retain false, dup false, empty buffers. -/
structure MQTTPacket where
  type : Nat := PacketType.CONNECT
  data : List Nat := []
  topic : List Nat := []
  payload : List Nat := []
  qos : Nat := 0
  retain : Bool := false
  dup : Bool := false
deriving Repr, DecidableEq

/-- The default-constructed MQTTPacket. -/
def MQTTPacket.default : MQTTPacket := {}

/-- MQTTPacket::toRawData, which returns the stored data vector. -/
def MQTTPacket.toRawData (p : MQTTPacket) : List Nat := p.data

/-- The Remaining Length decoding loop inside MQTTPacket::fromRawData
(mqtt_handler.cpp lines 39-50), transcribed byte for byte: accumulate
(b AND 0x7F) * multiplier, multiply the multiplier by 128, and return the
malformed sentinel (none) when the multiplier exceeds 128*128*128 after
the update; also none when the buffer runs out mid-loop (the C++ early
return on offset >= raw.size()). On success it returns the decoded length
and the bytes following the length field. -/
def decodeRemLenAux (mult acc : Nat) : List Nat → Option (Nat × List Nat)
  | [] => none
  | b :: rest =>
    let acc' := acc + (b &&& 0x7F) * mult
    let mult' := mult * 128
    if 128 * 128 * 128 < mult' then none
    else if b &&& 0x80 ≠ 0 then decodeRemLenAux mult' acc' rest
    else some (acc', rest)

/-- The PUBLISH body parse inside MQTTPacket::fromRawData (mqtt_handler.cpp
lines 34-76): decode the Remaining Length starting right after the fixed
header byte, read the 2-byte big-endian topic length, the topic, skip the
2-byte packet identifier when qos > 0, and take everything left as the
payload. Every guard transcribes one of the C++ bounds checks; whenever a
check fails the packet parsed so far is returned unchanged. The decoded
Remaining Length value itself is discarded, exactly as in the C++, which
never uses remainingLength after the loop. -/
def parsePublishBody (packet : MQTTPacket) (afterHeader : List Nat) : MQTTPacket :=
  match decodeRemLenAux 1 0 afterHeader with
  | none => packet
  | some (_, r1) =>
    match r1 with
    | hi :: lo :: r2 =>
      let topicLen := (hi <<< 8) ||| lo
      if topicLen ≤ r2.length then
        let topic := r2.take topicLen
        let r3 := r2.drop topicLen
        let r4 := if 0 < packet.qos ∧ 2 ≤ r3.length then r3.drop 2 else r3
        { packet with topic := topic, payload := r4 }
      else packet
    | _ => packet

/-- MQTTPacket::fromRawData (mqtt_handler.cpp lines 22-79): an empty buffer
yields the default packet; otherwise the fixed header byte is split into
type, dup, qos, retain, the whole input is stored as data, and for a
PUBLISH packet longer than 2 bytes the variable header is parsed. -/
def MQTTPacket.fromRawData (raw : List Nat) : MQTTPacket :=
  match raw with
  | [] => MQTTPacket.default
  | firstByte :: afterHeader =>
    let packet : MQTTPacket :=
      { type := (firstByte >>> 4) &&& 0x0F
        data := raw
        topic := []
        payload := []
        qos := (firstByte >>> 1) &&& 0x03
        retain := firstByte &&& 0x01 != 0
        dup := firstByte &&& 0x08 != 0 }
    if packet.type = PacketType.PUBLISH ∧ 2 < raw.length then
      parsePublishBody packet afterHeader
    else packet

/-- The Remaining Length encoding loop inside MQTTHandler::injectPacket
(mqtt_handler.cpp lines 296-303), a do-while: emit length mod 128, set the
continuation bit 0x80 when the quotient is still positive, and continue on
the quotient. -/
def encodeRemLen (remainingLength : Nat) : List Nat :=
  let encodedByte := remainingLength % 128
  let rest := remainingLength / 128
  if h : 0 < rest then (encodedByte ||| 0x80) :: encodeRemLen rest
  else [encodedByte]
termination_by remainingLength
decreasing_by
  exact Nat.div_lt_self (by omega) (by omega)

/-- The synthetic PUBLISH encoder of MQTTHandler::injectPacket
(mqtt_handler.cpp lines 285-313): fixed header 0x30, Remaining Length of
2 + topicLen + payload length, the 2-byte big-endian topic length, topic
bytes, payload bytes. The topic length is truncated through uint16_t by
the C++ static_cast, modelled as mod 65536; note the truncated value
enters the Remaining Length and the length field while the full topic is
appended, exactly as in the source. -/
def encodePublish (topic payload : List Nat) : List Nat :=
  let topicLen := topic.length % 65536
  let remainingLength := 2 + topicLen + payload.length
  0x30 :: (encodeRemLen remainingLength ++
    (topicLen >>> 8) :: (topicLen &&& 0xFF) :: (topic ++ payload))

/-- The MQTT 3.1.1 Remaining Length decoder as the specification describes
it (spec section 4.A): read successive bytes, contribute (b AND 0x7F) times
the multiplier, stop when the high bit is clear, and abort as malformed
only when more than four length bytes have been consumed. Modelled from the
spec for comparison with the decoding loop the source actually contains
(decodeRemLenAux): here the overflow check precedes the multiplier update,
so four-byte encodings are accepted. -/
def specDecodeRemLenAux (mult acc : Nat) : List Nat → Option (Nat × List Nat)
  | [] => none
  | b :: rest =>
    if 128 * 128 * 128 < mult then none
    else
      let acc' := acc + (b &&& 0x7F) * mult
      if b &&& 0x80 ≠ 0 then specDecodeRemLenAux (mult * 128) acc' rest
      else some (acc', rest)

/-- Classification used by MQTTConnection::doReadFromClient
(mqtt_handler.cpp line 494): the chunk is nonempty and the high nibble of
its first byte is 1 (CONNECT). -/
def isConnectChunk (chunk : List Nat) : Bool :=
  match chunk with
  | [] => false
  | b :: _ => (b >>> 4) &&& 0x0F == 1

/-- Observable state of one plain MQTTConnection pair: the two liveness
flags of the class, the chunks actually read from each socket, the chunks
written to each socket, and the number of broker connect attempts
initiated (calls that reach the resolve-and-connect body of
connectToBroker). -/
structure ConnState where
  connected : Bool := false
  brokerConnected : Bool := false
  clientReads : List (List Nat) := []
  brokerReads : List (List Nat) := []
  clientWrites : List (List Nat) := []
  brokerWrites : List (List Nat) := []
  connectAttempts : Nat := 0
deriving Repr, DecidableEq

/-- MQTTConnection::stop (mqtt_handler.cpp lines 373-388): early return
when already stopped, otherwise clear both flags and close both sockets. -/
def ConnState.stop (s : ConnState) : ConnState :=
  if s.connected then { s with connected := false, brokerConnected := false }
  else s

/-- MQTTConnection::sendToClient: guarded on connected, then an async
write of the whole buffer to the client socket. -/
def ConnState.sendToClient (s : ConnState) (data : List Nat) : ConnState :=
  if s.connected then { s with clientWrites := s.clientWrites ++ [data] }
  else s

/-- MQTTConnection::sendToBroker: guarded on brokerConnected, then an
async write of the whole buffer to the broker socket. -/
def ConnState.sendToBroker (s : ConnState) (data : List Nat) : ConnState :=
  if s.brokerConnected then { s with brokerWrites := s.brokerWrites ++ [data] }
  else s

/-- MQTTConnection::connectToBroker (mqtt_handler.cpp lines 390-409):
early return when the broker socket is already connected; otherwise one
resolve-and-connect attempt is initiated, which either succeeds (the ok
parameter models the network outcome) and sets brokerConnected, or fails
and tears the pair down via stop. -/
def ConnState.connectToBroker (ok : Bool) (s : ConnState) : ConnState :=
  if s.brokerConnected then s
  else
    let s' := { s with connectAttempts := s.connectAttempts + 1 }
    if ok then { s' with brokerConnected := true }
    else s'.stop

/-- Events driving one plain connection pair: a read completing on the
client socket (carrying the outcome ok of a broker connect attempt, should
the chunk trigger one), a read completing on the broker socket, or a read
error on either socket. -/
inductive ConnEvent where
  | fromClient (ok : Bool) (chunk : List Nat)
  | fromBroker (chunk : List Nat)
  | clientError
  | brokerError
deriving Repr, DecidableEq

/-- One step of the plain relay loops, transcribing the completion
handlers of MQTTConnection::doReadFromClient (mqtt_handler.cpp lines
473-508) and doReadFromBroker (lines 510-536). A client chunk is read only
while connected (the guard that stops re-arming the read): it is decoded
and captured (handlePacket, modelled on the handler store separately),
then if the broker is not yet connected and the chunk classifies as
CONNECT, connectToBroker runs; then the chunk is forwarded to the broker
socket (sendToBroker is a no-op unless brokerConnected). A broker chunk is
read only while brokerConnected and is forwarded to the client socket.
Read errors tear the pair down. -/
def stepConn (s : ConnState) : ConnEvent → ConnState
  | .fromClient ok chunk =>
    if s.connected then
      let s1 := { s with clientReads := s.clientReads ++ [chunk] }
      let s2 :=
        if !s1.brokerConnected && isConnectChunk chunk then s1.connectToBroker ok
        else s1
      s2.sendToBroker chunk
    else s
  | .fromBroker chunk =>
    if s.brokerConnected then
      ({ s with brokerReads := s.brokerReads ++ [chunk] }).sendToClient chunk
    else s
  | .clientError => if s.connected then s.stop else s
  | .brokerError => if s.brokerConnected then s.stop else s

/-- State of a plain pair right after MQTTConnection::start: connected is
set, the broker socket is idle until a CONNECT arrives. -/
def initConn : ConnState := { connected := true }

/-- Run a plain connection pair over a trace of events. -/
def runConn (events : List ConnEvent) : ConnState :=
  List.foldl stepConn initConn events

/-- Chunks not yet dropped once the leading non-CONNECT chunks are
removed: the client chunks from the first CONNECT-classified chunk
onwards. -/
def chunksFromConnect (chunks : List (List Nat)) : List (List Nat) :=
  chunks.dropWhile (fun c => !isConnectChunk c)

/-- Unconditional invariant of the plain relay state machine: the broker
flag implies the client flag, the broker connects only after a CONNECT
chunk was read, before any CONNECT is read no attempt was made, the
attempt counter is 1 exactly when a CONNECT chunk has been read, and every
chunk read from the broker has been written to the client. -/
def ConnInvA (s : ConnState) : Prop :=
  (s.brokerConnected = true → s.connected = true) ∧
  (s.brokerConnected = true → s.clientReads.any isConnectChunk = true) ∧
  (s.connected = true → s.brokerConnected = false →
    s.clientReads.any isConnectChunk = false) ∧
  (s.connectAttempts = if s.clientReads.any isConnectChunk then 1 else 0) ∧
  (s.clientWrites = s.brokerReads)

/-- Forwarding invariant of the plain relay state machine, maintained when
every broker connect attempt in the trace succeeds: the chunks written to
the broker socket are exactly the client chunks from the first CONNECT
onwards. -/
def ConnInvB (s : ConnState) : Prop :=
  s.brokerWrites = chunksFromConnect s.clientReads

/-- An event whose embedded broker connect outcome, if any, is success. -/
def connectOk : ConnEvent → Bool
  | .fromClient ok _ => ok
  | _ => true

/-- Observable state of one MQTTTLSConnection pair, with the same reading
as ConnState. -/
structure TLSConnState where
  connected : Bool := false
  brokerConnected : Bool := false
  clientReads : List (List Nat) := []
  brokerReads : List (List Nat) := []
  clientWrites : List (List Nat) := []
  brokerWrites : List (List Nat) := []
  connectAttempts : Nat := 0
deriving Repr, DecidableEq

/-- MQTTTLSConnection::stop (mqtt_handler.cpp lines 606-618): clears both
flags unconditionally (no early return in the TLS variant), shuts the TLS
stream down and closes both sockets. -/
def TLSConnState.stop (s : TLSConnState) : TLSConnState :=
  { s with connected := false, brokerConnected := false }

/-- MQTTTLSConnection::sendToClient: guarded on connected. -/
def TLSConnState.sendToClient (s : TLSConnState) (data : List Nat) : TLSConnState :=
  if s.connected then { s with clientWrites := s.clientWrites ++ [data] }
  else s

/-- MQTTTLSConnection::sendToBroker: guarded on brokerConnected. -/
def TLSConnState.sendToBroker (s : TLSConnState) (data : List Nat) : TLSConnState :=
  if s.brokerConnected then { s with brokerWrites := s.brokerWrites ++ [data] }
  else s

/-- Events driving one TLS pair: the TLS handshake with the client
completing, the plain TCP connect to the broker completing, or a read
completing on either side. -/
inductive TLSEvent where
  | handshakeDone (ok : Bool)
  | connectDone (ok : Bool)
  | fromClient (chunk : List Nat)
  | fromBroker (chunk : List Nat)
deriving Repr, DecidableEq

/-- One step of the TLS pair, transcribing the completion handlers of
MQTTTLSConnection (mqtt_handler.cpp lines 620-721). A successful client
handshake sets connected and immediately initiates the broker connect
attempt (doConnectToBroker is called from the handshake handler, before
any client byte is read); its completion sets brokerConnected and starts
both relay loops. Chunks are captured and forwarded exactly like the
plain pair; any failure tears the pair down. -/
def stepTLS (s : TLSConnState) : TLSEvent → TLSConnState
  | .handshakeDone ok =>
    if ok then { s with connected := true, connectAttempts := s.connectAttempts + 1 }
    else s.stop
  | .connectDone ok =>
    if ok then { s with brokerConnected := true }
    else s.stop
  | .fromClient chunk =>
    if s.connected then
      ({ s with clientReads := s.clientReads ++ [chunk] }).sendToBroker chunk
    else s
  | .fromBroker chunk =>
    if s.brokerConnected then
      ({ s with brokerReads := s.brokerReads ++ [chunk] }).sendToClient chunk
    else s

/-- State of a TLS pair right after construction; MQTTTLSConnection::start
only launches the handshake. -/
def initTLS : TLSConnState := {}

/-- Observable state of the MQTTHandler coordinator: the running flag, the
two acceptors, the registered plain and TLS pairs, the capture store and
the diagnostics written to the error stream. -/
structure MQTTHandler where
  running : Bool := false
  acceptorOpen : Bool := false
  tlsAcceptorOpen : Bool := false
  connections : List ConnState := []
  tlsConnections : List TLSConnState := []
  storedPackets : List MQTTPacket := []
  diagnostics : List String := []
deriving Repr, DecidableEq

/-- Apply a function to the first element of a list, if any; this models
an operation on the element at index 0 of a C++ vector. -/
def updateHead (f : α → α) : List α → List α
  | [] => []
  | x :: xs => f x :: xs

/-- MQTTHandler::storePacket (mqtt_handler.cpp lines 260-266): append the
packet, and when the size exceeds 1000 erase the front entry. -/
def MQTTHandler.storePacket (h : MQTTHandler) (packet : MQTTPacket) : MQTTHandler :=
  let stored := h.storedPackets ++ [packet]
  { h with storedPackets := if 1000 < stored.length then stored.drop 1 else stored }

/-- The capture store contents after a sequence of storePacket calls on a
fresh handler. -/
def capStore (packets : List MQTTPacket) : List MQTTPacket :=
  (List.foldl MQTTHandler.storePacket {} packets).storedPackets

/-- MQTTHandler::stop (mqtt_handler.cpp lines 129-146): early return when
not running; otherwise clear the running flag, close the plain acceptor,
stop each registered plain pair and clear that vector. The TLS acceptor
and the TLS pair vector are not touched by the source (its TLS accept
loop merely stops re-arming because running is false). -/
def MQTTHandler.stop (h : MQTTHandler) : MQTTHandler :=
  if h.running then
    { h with running := false, acceptorOpen := false, connections := [] }
  else h

/-- MQTTHandler::injectPacket (mqtt_handler.cpp lines 274-337): when both
connection vectors are empty, a diagnostic and nothing else; otherwise
encode the synthetic PUBLISH and send it through element 0 of the TLS
vector when that vector is nonempty, else through element 0 of the plain
vector, to the client or broker side as requested. -/
def MQTTHandler.injectPacket (h : MQTTHandler) (topic payload : List Nat)
    (toClient : Bool) : MQTTHandler :=
  let hasPlainConn := !h.connections.isEmpty
  let hasTLSConn := !h.tlsConnections.isEmpty
  if !hasPlainConn && !hasTLSConn then
    { h with diagnostics := h.diagnostics ++ ["No active connections to send packet to"] }
  else
    let packet := encodePublish topic payload
    if hasTLSConn then
      if toClient then
        { h with tlsConnections := updateHead (·.sendToClient packet) h.tlsConnections }
      else
        { h with tlsConnections := updateHead (·.sendToBroker packet) h.tlsConnections }
    else
      if toClient then
        { h with connections := updateHead (·.sendToClient packet) h.connections }
      else
        { h with connections := updateHead (·.sendToBroker packet) h.connections }

/-- MQTTHandler::replayPacket (mqtt_handler.cpp lines 339-355): an index
outside [0, size) gives an invalid-index diagnostic; with no registered
plain pair a no-connections diagnostic; otherwise the stored raw bytes of
the indexed packet are sent to the client socket of plain pair 0. The
C++ index is an int, modelled as Int. -/
def MQTTHandler.replayPacket (h : MQTTHandler) (packetIndex : Int) : MQTTHandler :=
  if packetIndex < 0 ∨ (h.storedPackets.length : Int) ≤ packetIndex then
    { h with diagnostics := h.diagnostics ++ ["Invalid packet index"] }
  else if h.connections.isEmpty then
    { h with diagnostics := h.diagnostics ++ ["No active connections to replay packet to"] }
  else
    let packet := (h.storedPackets[packetIndex.toNat]?).getD MQTTPacket.default
    { h with connections := updateHead (·.sendToClient packet.toRawData) h.connections }

/-! ### Bitwise arithmetic helpers -/

theorem and_127_eq_mod (x : Nat) : x &&& 127 = x % 128 := by
  have h := Nat.and_pow_two_sub_one_eq_mod x 7
  norm_num at h
  exact h

theorem and_255_eq_mod (x : Nat) : x &&& 255 = x % 256 := by
  have h := Nat.and_pow_two_sub_one_eq_mod x 8
  norm_num at h
  exact h

theorem and_15_of_lt {x : Nat} (h : x < 16) : x &&& 15 = x := by
  have h' := Nat.and_pow_two_sub_one_of_lt_two_pow (x := x) (n := 4) (by omega)
  norm_num at h'
  exact h'

theorem or_128_of_lt {x : Nat} (h : x < 128) : x ||| 128 = x + 128 := by
  rw [Nat.or_comm]
  have h' := Nat.mul_add_lt_is_or (i := 7) (b := x) (by omega) 1
  norm_num at h'
  rw [← h']
  omega

theorem add_128_and_128 {x : Nat} (h : x < 128) : (x + 128) &&& 128 = 128 := by
  have hb : x < 2 ^ 7 := by omega
  have ht : (x + 128).testBit 7 = true := by
    have h' := Nat.testBit_mul_pow_two_add 1 hb 7
    norm_num at h'
    rw [Nat.add_comm] at h'
    exact h'
  have ha := Nat.and_two_pow (x + 128) 7
  rw [ht] at ha
  norm_num at ha
  exact ha

theorem and_128_of_lt {x : Nat} (h : x < 128) : x &&& 128 = 0 := by
  have ht : x.testBit 7 = false := Nat.testBit_lt_two_pow (by omega)
  have ha := Nat.and_two_pow x 7
  rw [ht] at ha
  norm_num at ha
  exact ha

theorem topicLen_roundtrip (t : Nat) :
    ((t >>> 8) <<< 8) ||| (t &&& 255) = t := by
  rw [Nat.shiftRight_eq_div_pow, Nat.shiftLeft_eq, and_255_eq_mod]
  have hm : t % 256 < 2 ^ 8 := by omega
  have h' := Nat.mul_add_lt_is_or hm (t / 2 ^ 8)
  rw [Nat.mul_comm (t / 2 ^ 8) (2 ^ 8), ← h']
  have h8 : (2 : Nat) ^ 8 = 256 := by norm_num
  rw [h8]
  omega

/-! ### Remaining Length codec lemmas -/

theorem encodeRemLen_of_lt {n : Nat} (h : n < 128) : encodeRemLen n = [n] := by
  unfold encodeRemLen
  have h0 : n / 128 = 0 := Nat.div_eq_of_lt h
  simp [h0, Nat.mod_eq_of_lt h]

theorem encodeRemLen_of_ge {n : Nat} (h : 128 ≤ n) :
    encodeRemLen n = (n % 128 ||| 128) :: encodeRemLen (n / 128) := by
  conv_lhs => rw [encodeRemLen]
  have h0 : 0 < n / 128 := Nat.div_pos h (by omega)
  simp [h0]

theorem encodeRemLen_ne_nil (n : Nat) : encodeRemLen n ≠ [] := by
  by_cases h : n < 128
  · rw [encodeRemLen_of_lt h]
    simp
  · rw [encodeRemLen_of_ge (by omega)]
    simp

/-- The decoding loop of the source undoes the encoding loop as long as at
most three length bytes are involved; mult = 128 ^ k tracks how many bytes
the loop already consumed. -/
theorem decodeRemLenAux_encode (n : Nat) : ∀ k acc rest, k ≤ 2 → n < 128 ^ (3 - k) →
    decodeRemLenAux (128 ^ k) acc (encodeRemLen n ++ rest) =
      some (acc + 128 ^ k * n, rest) := by
  induction n using Nat.strong_induction_on with
  | _ n ih =>
    intro k acc rest hk hn
    by_cases h : n < 128
    · rw [encodeRemLen_of_lt h]
      show decodeRemLenAux (128 ^ k) acc (n :: rest) = _
      unfold decodeRemLenAux
      have hle : 128 ^ k * 128 ≤ 128 * 128 * 128 := by
        have : 128 ^ k * 128 = 128 ^ (k + 1) := by ring
        rw [this]
        calc 128 ^ (k + 1) ≤ 128 ^ 3 := Nat.pow_le_pow_right (by omega) (by omega)
        _ = 128 * 128 * 128 := by norm_num
      rw [if_neg (by omega), and_127_eq_mod, and_128_of_lt h]
      simp [Nat.mod_eq_of_lt h, Nat.mul_comm]
    · push_neg at h
      have hk1 : k ≤ 1 := by
        by_contra hk2
        have hk3 : k = 2 := by omega
        rw [hk3] at hn
        norm_num at hn
        omega
      rw [encodeRemLen_of_ge h]
      have hmod : n % 128 < 128 := Nat.mod_lt n (by omega)
      rw [or_128_of_lt hmod]
      show decodeRemLenAux (128 ^ k) acc ((n % 128 + 128) :: (encodeRemLen (n / 128) ++ rest)) = _
      unfold decodeRemLenAux
      have hle : 128 ^ k * 128 ≤ 128 * 128 * 128 := by
        have he : 128 ^ k * 128 = 128 ^ (k + 1) := by ring
        rw [he]
        calc 128 ^ (k + 1) ≤ 128 ^ 3 := Nat.pow_le_pow_right (by omega) (by omega)
        _ = 128 * 128 * 128 := by norm_num
      rw [if_neg (by omega), add_128_and_128 hmod]
      simp only [ne_eq, OfNat.ofNat_ne_zero, not_false_eq_true, if_pos]
      have hpow : 128 ^ k * 128 = 128 ^ (k + 1) := by ring
      have hdiv : n / 128 < 128 ^ (3 - (k + 1)) := by
        rw [Nat.div_lt_iff_lt_mul (by omega)]
        have he : 128 ^ (3 - (k + 1)) * 128 = 128 ^ (3 - k) := by
          rw [← Nat.pow_succ]
          congr 1
          omega
        rw [he]
        exact hn
      have hrec := ih (n / 128) (Nat.div_lt_self (by omega) (by omega)) (k + 1)
        (acc + ((n % 128 + 128) &&& 127) * 128 ^ k) rest (by omega) hdiv
      rw [hpow]
      rw [hrec]
      congr 2
      rw [and_127_eq_mod]
      have hm : (n % 128 + 128) % 128 = n % 128 := by omega
      rw [hm]
      have hsplit : n = 128 * (n / 128) + n % 128 := (Nat.div_add_mod n 128).symm
      conv_rhs => rw [hsplit]
      ring

/-- Whenever the encoded form needs a fourth length byte the decoding loop
of the source aborts with the malformed sentinel. -/
theorem decodeRemLenAux_encode_malformed (n : Nat) :
    ∀ k acc rest, k ≤ 3 → 128 ^ (3 - k) ≤ n →
    decodeRemLenAux (128 ^ k) acc (encodeRemLen n ++ rest) = none := by
  induction n using Nat.strong_induction_on with
  | _ n ih =>
    intro k acc rest hk hn
    by_cases h : n < 128
    · have hk3 : k = 3 := by
        by_contra hk2
        have : 1 ≤ 3 - k := by omega
        have : (128 : Nat) ^ 1 ≤ 128 ^ (3 - k) := Nat.pow_le_pow_right (by omega) this
        norm_num at this
        omega
      rw [encodeRemLen_of_lt h]
      show decodeRemLenAux (128 ^ k) acc (n :: rest) = _
      unfold decodeRemLenAux
      rw [if_pos (by rw [hk3]; norm_num)]
    · push_neg at h
      rw [encodeRemLen_of_ge h]
      have hmod : n % 128 < 128 := Nat.mod_lt n (by omega)
      rw [or_128_of_lt hmod]
      show decodeRemLenAux (128 ^ k) acc ((n % 128 + 128) :: (encodeRemLen (n / 128) ++ rest)) = _
      unfold decodeRemLenAux
      by_cases hk3 : k = 3
      · rw [if_pos (by rw [hk3]; norm_num)]
      · have hle : 128 ^ k * 128 ≤ 128 * 128 * 128 := by
          have he : 128 ^ k * 128 = 128 ^ (k + 1) := by ring
          rw [he]
          calc 128 ^ (k + 1) ≤ 128 ^ 3 := Nat.pow_le_pow_right (by omega) (by omega)
          _ = 128 * 128 * 128 := by norm_num
        rw [if_neg (by omega), add_128_and_128 hmod]
        simp only [ne_eq, OfNat.ofNat_ne_zero, not_false_eq_true, if_pos]
        have hpow : 128 ^ k * 128 = 128 ^ (k + 1) := by ring
        have hdiv : 128 ^ (3 - (k + 1)) ≤ n / 128 := by
          rw [Nat.le_div_iff_mul_le (by omega)]
          have he : 128 ^ (3 - (k + 1)) * 128 = 128 ^ (3 - k) := by
            rw [← Nat.pow_succ]
            congr 1
            omega
          rw [he]
          exact hn
        rw [hpow]
        exact ih (n / 128) (Nat.div_lt_self (by omega) (by omega)) (k + 1) _ rest
          (by omega) hdiv

/-- The spec-modelled MQTT 3.1.1 decoder undoes the encoding loop on the
whole range, four length bytes included. -/
theorem specDecodeRemLenAux_encode (n : Nat) :
    ∀ k acc rest, k ≤ 3 → n < 128 ^ (4 - k) →
    specDecodeRemLenAux (128 ^ k) acc (encodeRemLen n ++ rest) =
      some (acc + 128 ^ k * n, rest) := by
  induction n using Nat.strong_induction_on with
  | _ n ih =>
    intro k acc rest hk hn
    have hmult : ¬ (128 * 128 * 128 < 128 ^ k) := by
      have : (128 : Nat) ^ k ≤ 128 ^ 3 := Nat.pow_le_pow_right (by omega) hk
      norm_num at this ⊢
      omega
    by_cases h : n < 128
    · rw [encodeRemLen_of_lt h]
      show specDecodeRemLenAux (128 ^ k) acc (n :: rest) = _
      unfold specDecodeRemLenAux
      rw [if_neg hmult, and_127_eq_mod, and_128_of_lt h]
      simp [Nat.mod_eq_of_lt h, Nat.mul_comm]
    · push_neg at h
      have hk1 : k ≤ 2 := by
        by_contra hk2
        have hk3 : k = 3 := by omega
        rw [hk3] at hn
        norm_num at hn
        omega
      rw [encodeRemLen_of_ge h]
      have hmod : n % 128 < 128 := Nat.mod_lt n (by omega)
      rw [or_128_of_lt hmod]
      show specDecodeRemLenAux (128 ^ k) acc
        ((n % 128 + 128) :: (encodeRemLen (n / 128) ++ rest)) = _
      unfold specDecodeRemLenAux
      rw [if_neg hmult, add_128_and_128 hmod]
      simp only [ne_eq, OfNat.ofNat_ne_zero, not_false_eq_true, if_pos]
      have hpow : 128 ^ k * 128 = 128 ^ (k + 1) := by ring
      have hdiv : n / 128 < 128 ^ (4 - (k + 1)) := by
        rw [Nat.div_lt_iff_lt_mul (by omega)]
        have he : 128 ^ (4 - (k + 1)) * 128 = 128 ^ (4 - k) := by
          rw [← Nat.pow_succ]
          congr 1
          omega
        rw [he]
        exact hn
      have hrec := ih (n / 128) (Nat.div_lt_self (by omega) (by omega)) (k + 1)
        (acc + ((n % 128 + 128) &&& 127) * 128 ^ k) rest (by omega) hdiv
      rw [hpow, hrec]
      congr 2
      rw [and_127_eq_mod]
      have hm : (n % 128 + 128) % 128 = n % 128 := by omega
      rw [hm]
      have hsplit : n = 128 * (n / 128) + n % 128 := (Nat.div_add_mod n 128).symm
      conv_rhs => rw [hsplit]
      ring

/-- C10: MQTTPacket::fromRawData applied to the empty buffer returns the
default-constructed packet, whose type field is CONNECT (1), qos 0, retain
false, dup false, with empty topic, payload and raw data; there is no
distinct empty or unknown type marker. -/
theorem fromRawData_empty_default :
    MQTTPacket.fromRawData [] = MQTTPacket.default ∧
    MQTTPacket.default =
      { type := PacketType.CONNECT, data := [], topic := [], payload := [],
        qos := 0, retain := false, dup := false } ∧
    PacketType.CONNECT = 1 :=
  ⟨rfl, rfl, rfl⟩

/-- Folding storePacket keeps only the most recent 1000 entries: a bounded
FIFO characterization generalized over the starting store. -/
theorem storePacket_foldl (packets : List MQTTPacket) :
    ∀ h : MQTTHandler, h.storedPackets.length ≤ 1000 →
      (List.foldl MQTTHandler.storePacket h packets).storedPackets =
        (h.storedPackets ++ packets).drop
          (h.storedPackets.length + packets.length - 1000) := by
  induction packets with
  | nil =>
    intro h hh
    simp [Nat.sub_eq_zero_of_le hh]
  | cons p ps ih =>
    intro h hh
    simp only [List.foldl_cons]
    have hassoc : h.storedPackets ++ [p] ++ ps = h.storedPackets ++ p :: ps := by
      simp
    by_cases hc : 1000 < h.storedPackets.length + 1
    · have hlen : h.storedPackets.length = 1000 := by omega
      have hstep : (MQTTHandler.storePacket h p).storedPackets =
          (h.storedPackets ++ [p]).drop 1 := by
        simp only [MQTTHandler.storePacket]
        rw [if_pos (by simp; omega)]
      have hrec := ih (MQTTHandler.storePacket h p) (by rw [hstep]; simp; omega)
      rw [hrec, hstep]
      have hdl : ((h.storedPackets ++ [p]).drop 1).length = 1000 := by
        simp [hlen]
      rw [hdl]
      have hamt : 1000 + ps.length - 1000 = ps.length := by omega
      rw [hamt]
      rw [← List.drop_append_of_le_length
        (show 1 ≤ (h.storedPackets ++ [p]).length by simp)]
      rw [List.drop_drop, hassoc]
      have hamt2 : h.storedPackets.length + (p :: ps).length - 1000 = ps.length + 1 := by
        simp [hlen]
      rw [hamt2, Nat.add_comm 1 ps.length]
    · have hstep : (MQTTHandler.storePacket h p).storedPackets =
          h.storedPackets ++ [p] := by
        simp only [MQTTHandler.storePacket]
        rw [if_neg (by simp; omega)]
      have hrec := ih (MQTTHandler.storePacket h p) (by rw [hstep]; simp; omega)
      rw [hrec, hstep]
      have hamt : (h.storedPackets ++ [p]).length + ps.length - 1000 =
          h.storedPackets.length + (p :: ps).length - 1000 := by
        simp
        omega
      rw [hamt, hassoc]

theorem capStore_bound_and_fifo (packets : List MQTTPacket) :
    (capStore packets).length ≤ 1000 ∧
    capStore packets = packets.drop (packets.length - 1000) := by
  have h := storePacket_foldl packets {} (by norm_num)
  have hc : capStore packets = packets.drop (packets.length - 1000) := by
    unfold capStore
    rw [h]
    norm_num
  refine ⟨?_, hc⟩
  rw [hc]
  simp
  omega

/-- Concrete four-byte encoding of the Remaining Length 2097152, the
smallest value whose minimal MQTT form needs four length bytes. -/
theorem encodeRemLen_2097152 : encodeRemLen 2097152 = [0x80, 0x80, 0x80, 0x01] := by
  rw [encodeRemLen_of_ge (by norm_num)]
  norm_num
  rw [encodeRemLen_of_ge (by norm_num)]
  norm_num
  rw [encodeRemLen_of_ge (by norm_num)]
  norm_num
  rw [encodeRemLen_of_lt (by norm_num)]

/-- The decoding loop of the source aborts on the four-byte form 80 80 80 01
whatever bytes follow it. -/
theorem decodeRemLenAux_four_bytes (rest : List Nat) :
    decodeRemLenAux 1 0 (0x80 :: 0x80 :: 0x80 :: 0x01 :: rest) = none := by
  unfold decodeRemLenAux
  rw [if_neg (by norm_num), if_pos (by decide)]
  unfold decodeRemLenAux
  rw [if_neg (by norm_num), if_pos (by decide)]
  unfold decodeRemLenAux
  rw [if_neg (by norm_num), if_pos (by decide)]
  unfold decodeRemLenAux
  rw [if_pos (by norm_num)]

/-- C2 (code bug): length 2097152 = 128 cubed is inside the MQTT 3.1.1
range [0, 268435455]; the injectPacket encoding loop emits its minimal
four-byte form 80 80 80 01, and the spec-modelled MQTT decoder reads it
back, but the decoding loop of fromRawData returns the malformed sentinel
after consuming exactly four length bytes, whatever follows them, so
encode-then-decode is not the identity on the claimed range. -/
theorem remLen_four_bytes_rejected :
    encodeRemLen 2097152 = [0x80, 0x80, 0x80, 0x01] ∧
    (∀ rest, decodeRemLenAux 1 0 (encodeRemLen 2097152 ++ rest) = none) ∧
    specDecodeRemLenAux 1 0 (encodeRemLen 2097152) = some (2097152, []) := by
  refine ⟨encodeRemLen_2097152, ?_, ?_⟩
  · intro rest
    rw [encodeRemLen_2097152]
    exact decodeRemLenAux_four_bytes rest
  · rw [encodeRemLen_2097152]
    decide

/-- Record fields other than topic and payload pass through the PUBLISH
body parse untouched. -/
theorem parsePublishBody_preserves (p : MQTTPacket) (l : List Nat) :
    (parsePublishBody p l).data = p.data ∧ (parsePublishBody p l).type = p.type := by
  unfold parsePublishBody
  split
  · exact ⟨rfl, rfl⟩
  · split
    · dsimp only
      split
      · exact ⟨rfl, rfl⟩
      · exact ⟨rfl, rfl⟩
    · exact ⟨rfl, rfl⟩

/-- C9 (amended): for every nonempty buffer of bytes, fromRawData stores
the full input verbatim, toRawData returns that original byte sequence,
and the packet type equals the high nibble of the first byte. The length
equation of the claim is not maintained: fromRawData validates nothing
(see the accompanying counterexample). -/
theorem fromRawData_preserves_raw (firstByte : Nat) (afterHeader : List Nat)
    (hb : firstByte < 256) :
    (MQTTPacket.fromRawData (firstByte :: afterHeader)).data = firstByte :: afterHeader ∧
    (MQTTPacket.fromRawData (firstByte :: afterHeader)).toRawData = firstByte :: afterHeader ∧
    (MQTTPacket.fromRawData (firstByte :: afterHeader)).type = firstByte >>> 4 := by
  have htype : (firstByte >>> 4) &&& 15 = firstByte >>> 4 := by
    apply and_15_of_lt
    rw [Nat.shiftRight_eq_div_pow]
    omega
  have hdata : (MQTTPacket.fromRawData (firstByte :: afterHeader)).data =
      firstByte :: afterHeader ∧
      (MQTTPacket.fromRawData (firstByte :: afterHeader)).type =
        (firstByte >>> 4) &&& 15 := by
    simp only [MQTTPacket.fromRawData]
    split
    · exact parsePublishBody_preserves _ _
    · exact ⟨rfl, rfl⟩
  refine ⟨hdata.1, ?_, ?_⟩
  · unfold MQTTPacket.toRawData
    exact hdata.1
  · rw [hdata.2, htype]

/-- Witness for the C9 theorem at the two-byte CONNECT buffer 10 00. -/
theorem fromRawData_preserves_raw_witness :
    (16 : Nat) < 256 ∧
    ((MQTTPacket.fromRawData (16 :: [0])).data = 16 :: [0] ∧
     (MQTTPacket.fromRawData (16 :: [0])).toRawData = 16 :: [0] ∧
     (MQTTPacket.fromRawData (16 :: [0])).type = 16 >>> 4) :=
  ⟨by decide, fromRawData_preserves_raw 16 [0] (by decide)⟩

/-- C9 counterexample: the buffer 30 05 00 parses with Remaining Length 5
carried in one length byte, yet its total length 3 differs from
1 + 1 + 5, so the claimed length invariant fails on packets produced by
fromRawData. -/
theorem fromRawData_length_invariant_fails :
    decodeRemLenAux 1 0 [5, 0] = some (5, [0]) ∧
    (MQTTPacket.fromRawData [0x30, 5, 0]).data.length = 3 ∧
    (MQTTPacket.fromRawData [0x30, 5, 0]).type = PacketType.PUBLISH ∧
    3 ≠ 1 + 1 + 5 := by decide

/-- C1 (amended): for every topic of at most 65535 bytes and every payload
small enough that the Remaining Length 2 + topic length + payload length
stays below 2097152 (three length bytes, the range the decoding loop of
the source accepts), decoding the bytes injectPacket encodes yields a
PUBLISH packet carrying exactly the injected topic and payload. -/
theorem inject_decode_roundtrip (topic payload : List Nat)
    (htopic : topic.length ≤ 65535)
    (hlen : 2 + topic.length + payload.length < 2097152) :
    (MQTTPacket.fromRawData (encodePublish topic payload)).type = PacketType.PUBLISH ∧
    (MQTTPacket.fromRawData (encodePublish topic payload)).topic = topic ∧
    (MQTTPacket.fromRawData (encodePublish topic payload)).payload = payload := by
  have htl : topic.length % 65536 = topic.length := Nat.mod_eq_of_lt (by omega)
  have henc : encodePublish topic payload =
      0x30 :: (encodeRemLen (2 + topic.length + payload.length) ++
        (topic.length >>> 8) :: (topic.length &&& 0xFF) :: (topic ++ payload)) := by
    simp only [encodePublish, htl]
  rw [henc]
  simp only [MQTTPacket.fromRawData]
  rw [if_pos ?cond]
  case cond =>
    constructor
    · decide
    · have h1 : 1 ≤ (encodeRemLen (2 + topic.length + payload.length)).length := by
        cases he : encodeRemLen (2 + topic.length + payload.length) with
        | nil => exact absurd he (encodeRemLen_ne_nil _)
        | cons a l => simp
      simp
      omega
  have hdec := decodeRemLenAux_encode (2 + topic.length + payload.length) 0 0
    ((topic.length >>> 8) :: (topic.length &&& 0xFF) :: (topic ++ payload))
    (by omega) (by norm_num; omega)
  norm_num at hdec
  unfold parsePublishBody
  rw [hdec]
  have hroundtrip := topicLen_roundtrip topic.length
  dsimp only
  rw [hroundtrip]
  rw [if_pos (by simp)]
  have hq : ((0x30 : Nat) >>> 1) &&& 0x03 = 0 := by decide
  dsimp only
  rw [hq]
  rw [if_neg (by omega)]
  refine ⟨rfl, ?_, ?_⟩
  · show List.take topic.length (topic ++ payload) = topic
    exact List.take_left topic payload
  · show List.drop topic.length (topic ++ payload) = payload
    exact List.drop_left topic payload

/-- Witness for the C1 theorem: topic a, payload bc. -/
theorem inject_decode_roundtrip_witness :
    [97].length ≤ 65535 ∧ 2 + [97].length + [98, 99].length < 2097152 ∧
    ((MQTTPacket.fromRawData (encodePublish [97] [98, 99])).type = PacketType.PUBLISH ∧
     (MQTTPacket.fromRawData (encodePublish [97] [98, 99])).topic = [97] ∧
     (MQTTPacket.fromRawData (encodePublish [97] [98, 99])).payload = [98, 99]) :=
  ⟨by decide, by decide, inject_decode_roundtrip [97] [98, 99] (by decide) (by decide)⟩

/-- C1 counterexample: with the empty topic (at most 65535 bytes) and a
payload of 2097150 bytes the Remaining Length is 2097152, its encoding
takes four length bytes, the decoding loop of the source aborts, and the
decoded payload is empty rather than the injected payload; the round trip
claimed for every payload fails here. -/
theorem inject_decode_roundtrip_cx :
    ([] : List Nat).length ≤ 65535 ∧
    (MQTTPacket.fromRawData
        (encodePublish [] (List.replicate 2097150 97))).payload ≠
      List.replicate 2097150 97 := by
  have key : ∀ P : List Nat, P.length = 2097150 →
      (MQTTPacket.fromRawData (encodePublish [] P)).payload ≠ P := by
    intro P hP
    have henc : encodePublish [] P =
        0x30 :: 0x80 :: 0x80 :: 0x80 :: 0x01 :: 0 :: 0 :: P := by
      show 0x30 :: (encodeRemLen (2 + ([] : List Nat).length % 65536 + P.length) ++
          ((([] : List Nat).length % 65536) >>> 8) ::
          ((([] : List Nat).length % 65536) &&& 0xFF) ::
          (([] : List Nat) ++ P)) = _
      rw [hP]
      norm_num
      rw [encodeRemLen_2097152]
      rfl
    rw [henc]
    simp only [MQTTPacket.fromRawData]
    have hlen : 2 < (0x30 :: 0x80 :: 0x80 :: 0x80 :: 0x01 :: 0 :: 0 :: P).length := by
      simp only [List.length_cons]
      omega
    rw [if_pos ⟨rfl, hlen⟩]
    unfold parsePublishBody
    rw [decodeRemLenAux_four_bytes]
    intro hcontra
    have hl := congrArg List.length hcontra
    rw [hP] at hl
    have h0 : (0 : Nat) = 2097150 := hl
    exact absurd h0 (by omega)
  exact ⟨Nat.zero_le 65535, key (List.replicate 2097150 97)
    (List.length_replicate 2097150 97)⟩

/-- A client read log with no CONNECT-classified chunk is dropped whole by
chunksFromConnect. -/
theorem dropWhile_nonConnect_nil {cr : List (List Nat)}
    (hany : cr.any isConnectChunk = false) :
    cr.dropWhile (fun c => !isConnectChunk c) = [] := by
  rw [List.dropWhile_eq_nil_iff]
  intro x hx
  simp only [List.any_eq_false] at hany
  simp [hany x hx]

/-- One step of the plain relay loops preserves the unconditional
invariant. -/
theorem stepConn_invA (s : ConnState) (e : ConnEvent) (h : ConnInvA s) :
    ConnInvA (stepConn s e) := by
  obtain ⟨h1, h2, h3, h4, h5⟩ := h
  cases e with
  | fromClient ok chunk =>
    by_cases hc : s.connected
    · by_cases hb : s.brokerConnected
      · simp [stepConn, ConnState.sendToBroker, ConnState.connectToBroker,
          ConnInvA, hc, hb, h1 hb, h2 hb, List.any_append, h4, h5]
      · by_cases hcc : isConnectChunk chunk
        · have hany : s.clientReads.any isConnectChunk = false := h3 hc (by simp [hb])
          cases ok with
          | true =>
            simp [stepConn, ConnState.sendToBroker, ConnState.connectToBroker,
              ConnState.stop, ConnInvA, hc, hb, hcc, hany, List.any_append, h4, h5]
          | false =>
            simp [stepConn, ConnState.sendToBroker, ConnState.connectToBroker,
              ConnState.stop, ConnInvA, hc, hb, hcc, hany, List.any_append, h4, h5]
        · have hany : s.clientReads.any isConnectChunk = false := h3 hc (by simp [hb])
          simp [stepConn, ConnState.sendToBroker, ConnState.connectToBroker,
            ConnState.stop, ConnInvA, hc, hb, hcc, hany, List.any_append, h4, h5]
    · have hid : stepConn s (.fromClient ok chunk) = s := by simp [stepConn, hc]
      rw [hid]
      exact ⟨h1, h2, h3, h4, h5⟩
  | fromBroker chunk =>
    by_cases hb : s.brokerConnected
    · simp [stepConn, ConnState.sendToClient, ConnInvA, hb, h1 hb, h2 hb, h4, h5]
    · have hid : stepConn s (.fromBroker chunk) = s := by simp [stepConn, hb]
      rw [hid]
      exact ⟨h1, h2, h3, h4, h5⟩
  | clientError =>
    by_cases hc : s.connected
    · simp [stepConn, ConnState.stop, ConnInvA, hc, h4, h5]
    · have hid : stepConn s ConnEvent.clientError = s := by simp [stepConn, hc]
      rw [hid]
      exact ⟨h1, h2, h3, h4, h5⟩
  | brokerError =>
    by_cases hb : s.brokerConnected
    · simp [stepConn, ConnState.stop, ConnInvA, hb, h1 hb, h4, h5]
    · have hid : stepConn s ConnEvent.brokerError = s := by simp [stepConn, hb]
      rw [hid]
      exact ⟨h1, h2, h3, h4, h5⟩

/-- One step of the plain relay loops preserves the forwarding invariant,
provided the unconditional invariant held before and the embedded broker
connect outcome, if any, is success. -/
theorem stepConn_invB (s : ConnState) (e : ConnEvent) (hA : ConnInvA s)
    (hB : ConnInvB s) (hok : connectOk e = true) : ConnInvB (stepConn s e) := by
  obtain ⟨h1, h2, h3, h4, h5⟩ := hA
  unfold ConnInvB chunksFromConnect at hB ⊢
  cases e with
  | fromClient ok chunk =>
    have hok' : ok = true := hok
    subst hok'
    by_cases hc : s.connected
    · by_cases hb : s.brokerConnected
      · have hne : (s.clientReads.dropWhile (fun c => !isConnectChunk c)).isEmpty = false := by
          have hany := h2 hb
          rw [List.any_eq_true] at hany
          obtain ⟨x, hx, hpx⟩ := hany
          cases hE : (s.clientReads.dropWhile (fun c => !isConnectChunk c)).isEmpty
          · rfl
          · rw [List.isEmpty_eq_true, List.dropWhile_eq_nil_iff] at hE
            have := hE x hx
            simp [hpx] at this
        have hstep : stepConn s (.fromClient true chunk) =
            { s with clientReads := s.clientReads ++ [chunk],
                     brokerWrites := s.brokerWrites ++ [chunk] } := by
          simp [stepConn, ConnState.sendToBroker, hc, hb]
        rw [hstep]
        show s.brokerWrites ++ [chunk] =
          List.dropWhile (fun c => !isConnectChunk c) (s.clientReads ++ [chunk])
        rw [List.dropWhile_append, hne, hB]
        simp
      · have hany : s.clientReads.any isConnectChunk = false := h3 hc (by simp [hb])
        have hnil := dropWhile_nonConnect_nil hany
        by_cases hcc : isConnectChunk chunk
        · have hstep : stepConn s (.fromClient true chunk) =
              { s with clientReads := s.clientReads ++ [chunk],
                       brokerConnected := true,
                       connectAttempts := s.connectAttempts + 1,
                       brokerWrites := s.brokerWrites ++ [chunk] } := by
            simp [stepConn, ConnState.connectToBroker, ConnState.sendToBroker,
              hc, hb, hcc]
          rw [hstep]
          show s.brokerWrites ++ [chunk] =
            List.dropWhile (fun c => !isConnectChunk c) (s.clientReads ++ [chunk])
          rw [List.dropWhile_append, hnil, hB, hnil]
          simp [List.dropWhile_cons, hcc]
        · have hstep : stepConn s (.fromClient true chunk) =
              { s with clientReads := s.clientReads ++ [chunk] } := by
            simp [stepConn, ConnState.connectToBroker, ConnState.sendToBroker,
              hc, hb, hcc]
          rw [hstep]
          show s.brokerWrites =
            List.dropWhile (fun c => !isConnectChunk c) (s.clientReads ++ [chunk])
          rw [List.dropWhile_append, hnil, hB, hnil]
          simp [List.dropWhile_cons, hcc]
    · have hid : stepConn s (.fromClient true chunk) = s := by simp [stepConn, hc]
      rw [hid]
      exact hB
  | fromBroker chunk =>
    by_cases hb : s.brokerConnected
    · simp only [stepConn, hb, if_true, ConnState.sendToClient, h1 hb]
      simp [hB]
    · have hid : stepConn s (.fromBroker chunk) = s := by simp [stepConn, hb]
      rw [hid]
      exact hB
  | clientError =>
    by_cases hc : s.connected
    · simp only [stepConn, hc, if_true, ConnState.stop]
      simp [hc, hB]
    · have hid : stepConn s ConnEvent.clientError = s := by simp [stepConn, hc]
      rw [hid]
      exact hB
  | brokerError =>
    by_cases hb : s.brokerConnected
    · simp only [stepConn, hb, if_true, ConnState.stop, h1 hb]
      simp [h1 hb, hB]
    · have hid : stepConn s ConnEvent.brokerError = s := by simp [stepConn, hb]
      rw [hid]
      exact hB

/-- The freshly started pair satisfies the unconditional invariant. -/
theorem initConn_invA : ConnInvA initConn := by
  refine ⟨by simp [initConn], by simp [initConn], by simp [initConn],
    by simp [initConn], rfl⟩

/-- The freshly started pair satisfies the forwarding invariant. -/
theorem initConn_invB : ConnInvB initConn := rfl

/-- The unconditional invariant holds along every event trace. -/
theorem foldl_stepConn_invA (events : List ConnEvent) :
    ∀ s, ConnInvA s → ConnInvA (List.foldl stepConn s events) := by
  induction events with
  | nil => intro s hs; exact hs
  | cons e l ih =>
    intro s hs
    exact ih _ (stepConn_invA s e hs)

/-- The forwarding invariant holds along every trace whose broker connect
attempts all succeed. -/
theorem foldl_stepConn_invB (events : List ConnEvent) :
    ∀ s, ConnInvA s → ConnInvB s → (∀ e ∈ events, connectOk e = true) →
      ConnInvB (List.foldl stepConn s events) := by
  induction events with
  | nil =>
    intro s _ hB _
    exact hB
  | cons e l ih =>
    intro s hA hB hok
    exact ih _ (stepConn_invA s e hA)
      (stepConn_invB s e hA hB (hok e (by simp)))
      (fun e' he' => hok e' (by simp [he']))

/-- C3 (amended): over any event trace in which every broker connect
attempt succeeds, a plain pair writes to the broker socket exactly the
client chunks from the first CONNECT-classified chunk onwards (chunks read
before the first CONNECT are decoded and captured but never forwarded),
and writes to the client socket exactly the chunks read from the broker
socket; in particular the byte concatenations of those chunk lists agree. -/
theorem relay_forwarding (events : List ConnEvent)
    (hok : ∀ e ∈ events, connectOk e = true) :
    (runConn events).brokerWrites = chunksFromConnect (runConn events).clientReads ∧
    (runConn events).clientWrites = (runConn events).brokerReads ∧
    (runConn events).brokerWrites.flatten =
      (chunksFromConnect (runConn events).clientReads).flatten ∧
    (runConn events).clientWrites.flatten = (runConn events).brokerReads.flatten := by
  have hA := foldl_stepConn_invA events initConn initConn_invA
  have hB := foldl_stepConn_invB events initConn initConn_invA initConn_invB hok
  exact ⟨hB, hA.2.2.2.2, congrArg List.flatten hB, congrArg List.flatten hA.2.2.2.2⟩

/-- Witness for the C3 theorem on a three-event trace: CONNECT then
PUBLISH from the client, CONNACK from the broker. -/
theorem relay_forwarding_witness :
    (∀ e ∈ [ConnEvent.fromClient true [16, 2], ConnEvent.fromClient true [48, 0],
        ConnEvent.fromBroker [32, 0]], connectOk e = true) ∧
    ((runConn [ConnEvent.fromClient true [16, 2], ConnEvent.fromClient true [48, 0],
        ConnEvent.fromBroker [32, 0]]).brokerWrites =
      chunksFromConnect (runConn [ConnEvent.fromClient true [16, 2],
        ConnEvent.fromClient true [48, 0],
        ConnEvent.fromBroker [32, 0]]).clientReads) := by
  refine ⟨by decide, ?_⟩
  exact (relay_forwarding _ (by decide)).1

/-- C3 counterexample: a pair whose client sends a single PUBLISH chunk
and never a CONNECT forwards nothing to the broker, so the concatenation
of broker writes differs from the concatenation of client reads, refuting
byte-exact forwarding for arbitrary chunk sequences. -/
theorem relay_forwarding_cx :
    (runConn [ConnEvent.fromClient true [0x30, 0]]).clientReads = [[0x30, 0]] ∧
    (runConn [ConnEvent.fromClient true [0x30, 0]]).brokerWrites = [] ∧
    (runConn [ConnEvent.fromClient true [0x30, 0]]).brokerWrites.flatten ≠
      (runConn [ConnEvent.fromClient true [0x30, 0]]).clientReads.flatten := by
  decide

/-- C5 (amended): on a plain pair, over every event trace, the broker
connect attempt counter is 1 exactly when a CONNECT-classified chunk has
been read from the client and 0 before any such chunk, so the first
CONNECT initiates exactly one attempt and subsequent CONNECTs none; on a
TLS pair the single broker connect attempt is initiated by the successful
client handshake, before any client packet is observed, and client chunks
never change the TLS attempt counter. -/
theorem broker_connect_trigger :
    (∀ events : List ConnEvent,
      (runConn events).connectAttempts =
        if (runConn events).clientReads.any isConnectChunk then 1 else 0) ∧
    (∀ ok, stepTLS initTLS (.handshakeDone ok) =
      (if ok then { initTLS with connected := true, connectAttempts := 1 }
       else TLSConnState.stop initTLS)) ∧
    (∀ s chunk, (stepTLS s (.fromClient chunk)).connectAttempts = s.connectAttempts) := by
  refine ⟨?_, ?_, ?_⟩
  · intro events
    exact (foldl_stepConn_invA events initConn initConn_invA).2.2.2.1
  · intro ok
    cases ok <;> simp [stepTLS, initTLS, TLSConnState.stop]
  · intro s chunk
    by_cases hc : s.connected
    · by_cases hb : s.brokerConnected <;>
        simp [stepTLS, TLSConnState.sendToBroker, hc, hb]
    · simp [stepTLS, hc]

/-- C5 counterexample: a TLS pair whose handshake just succeeded has
already initiated a broker connect attempt although no packet, in
particular no CONNECT, has been observed from the client side. -/
theorem tls_connect_without_connect_cx :
    (stepTLS initTLS (.handshakeDone true)).connectAttempts = 1 ∧
    (stepTLS initTLS (.handshakeDone true)).clientReads = [] ∧
    (stepTLS initTLS (.handshakeDone true)).clientReads.any isConnectChunk = false := by
  decide

/-- C6 (amended): stop is infallible; when running it clears the running
flag, closes the plain acceptor and clears the plain pair registrations
(stopping each), and when already stopped it changes nothing; in every
case it leaves the TLS acceptor and the TLS pair registrations untouched
(the TLS accept loop merely stops re-arming because running is false). -/
theorem stop_effect (h : MQTTHandler) :
    MQTTHandler.stop h =
      (if h.running then
        { h with running := false, acceptorOpen := false, connections := [] }
       else h) ∧
    (MQTTHandler.stop h).tlsAcceptorOpen = h.tlsAcceptorOpen ∧
    (MQTTHandler.stop h).tlsConnections = h.tlsConnections ∧
    (MQTTHandler.stop h).running = false := by
  by_cases hr : h.running
  · simp [MQTTHandler.stop, hr]
  · have hr' : h.running = false := by simpa using hr
    simp [MQTTHandler.stop, hr']

/-- C6 counterexample: stopping a running handler with an open TLS
listener and one live TLS pair leaves the TLS acceptor open and the TLS
pair registered and still connected, refuting the claim that stop closes
all listeners and stops every registered pair. -/
theorem stop_leaves_tls_cx :
    (MQTTHandler.stop
      { running := true, acceptorOpen := true, tlsAcceptorOpen := true,
        connections := [],
        tlsConnections := [{ connected := true, brokerConnected := true }],
        storedPackets := [], diagnostics := [] }).tlsAcceptorOpen = true ∧
    (MQTTHandler.stop
      { running := true, acceptorOpen := true, tlsAcceptorOpen := true,
        connections := [],
        tlsConnections := [{ connected := true, brokerConnected := true }],
        storedPackets := [], diagnostics := [] }).tlsConnections.all
        (fun c => c.connected) = true ∧
    (MQTTHandler.stop
      { running := true, acceptorOpen := true, tlsAcceptorOpen := true,
        connections := [],
        tlsConnections := [{ connected := true, brokerConnected := true }],
        storedPackets := [], diagnostics := [] }).tlsConnections ≠ [] := by
  decide

/-- C7 (amended): injectPacket never touches the capture store; with no
registered pair of either kind it only appends a diagnostic; whenever any
TLS pair is registered the encoded PUBLISH is sent through the first
registered TLS pair, connected or not (the send is silently dropped by the
guard of the target socket when that pair is not connected), leaving the
plain pairs untouched; only when no TLS pair is registered does it target
the first registered plain pair in the same way. -/
theorem injectPacket_effect :
    (∀ (h : MQTTHandler) (topic payload : List Nat) (toClient : Bool),
      (MQTTHandler.injectPacket h topic payload toClient).storedPackets =
        h.storedPackets) ∧
    (∀ (h : MQTTHandler) (topic payload : List Nat) (toClient : Bool),
      h.connections = [] → h.tlsConnections = [] →
      MQTTHandler.injectPacket h topic payload toClient =
        { h with diagnostics := h.diagnostics ++
            ["No active connections to send packet to"] }) ∧
    (∀ (h : MQTTHandler) (topic payload : List Nat) (toClient : Bool) tc rest,
      h.tlsConnections = tc :: rest →
      MQTTHandler.injectPacket h topic payload toClient =
        { h with tlsConnections :=
            (if toClient then tc.sendToClient (encodePublish topic payload)
             else tc.sendToBroker (encodePublish topic payload)) :: rest }) ∧
    (∀ (h : MQTTHandler) (topic payload : List Nat) (toClient : Bool) c rest,
      h.tlsConnections = [] → h.connections = c :: rest →
      MQTTHandler.injectPacket h topic payload toClient =
        { h with connections :=
            (if toClient then c.sendToClient (encodePublish topic payload)
             else c.sendToBroker (encodePublish topic payload)) :: rest }) := by
  refine ⟨?_, ?_, ?_, ?_⟩
  · intro h t p b
    unfold MQTTHandler.injectPacket
    dsimp only
    split
    · rfl
    · split
      · split
        · rfl
        · rfl
      · split
        · rfl
        · rfl
  · intro h t p b hp ht
    simp [MQTTHandler.injectPacket, hp, ht]
  · intro h t p b tc rest ht
    cases hb : b <;> simp [MQTTHandler.injectPacket, ht, updateHead]
  · intro h t p b c rest ht hp
    cases hb : b <;> simp [MQTTHandler.injectPacket, ht, hp, updateHead]

/-- Witness for the C7 theorem on a handler with no registered pairs. -/
theorem injectPacket_effect_witness :
    ((MQTTHandler.injectPacket { running := true } [97] [98] true).storedPackets =
      ({ running := true } : MQTTHandler).storedPackets) ∧
    MQTTHandler.injectPacket { running := true } [97] [98] true =
      { running := true,
        diagnostics := ["No active connections to send packet to"] } := by
  refine ⟨injectPacket_effect.1 { running := true } [97] [98] true, ?_⟩
  have h2 := injectPacket_effect.2.1 { running := true } [97] [98] true rfl rfl
  simpa using h2

/-- C7 counterexample: with a stopped TLS pair registered at index 0 and
an active plain pair registered, injecting toward the client changes
nothing at all: no bytes reach the active plain pair, nothing is written
on the stopped TLS pair, and no diagnostic is emitted, refuting routing to
the first active pair and the no-op-with-diagnostic contract. -/
theorem injectPacket_inactive_tls_cx :
    MQTTHandler.injectPacket
        { running := true,
          connections := [{ connected := true, brokerConnected := true }],
          tlsConnections := [{}] } [97] [98] true =
      { running := true,
        connections := [{ connected := true, brokerConnected := true }],
        tlsConnections := [{}] } ∧
    ({} : TLSConnState).connected = false ∧
    ({ connected := true, brokerConnected := true } : ConnState).connected = true := by
  refine ⟨?_, rfl, rfl⟩
  simp [MQTTHandler.injectPacket, updateHead, TLSConnState.sendToClient]

/-- C8 (amended): replayPacket never touches the capture store; an index
outside [0, store size) yields only the invalid-index diagnostic; an index
in range with no registered plain pair yields only the no-connections
diagnostic (TLS pairs are never targeted); an index in range with a first
registered plain pair sends the stored raw bytes through that pair, where
the send is silently dropped if its client socket is not connected. -/
theorem replayPacket_effect :
    (∀ (h : MQTTHandler) (i : Int),
      (MQTTHandler.replayPacket h i).storedPackets = h.storedPackets) ∧
    (∀ (h : MQTTHandler) (i : Int),
      (i < 0 ∨ (h.storedPackets.length : Int) ≤ i) →
      MQTTHandler.replayPacket h i =
        { h with diagnostics := h.diagnostics ++ ["Invalid packet index"] }) ∧
    (∀ (h : MQTTHandler) (i : Int),
      ¬(i < 0 ∨ (h.storedPackets.length : Int) ≤ i) → h.connections = [] →
      MQTTHandler.replayPacket h i =
        { h with diagnostics := h.diagnostics ++
            ["No active connections to replay packet to"] }) ∧
    (∀ (h : MQTTHandler) (i : Int) (c : ConnState) rest,
      ¬(i < 0 ∨ (h.storedPackets.length : Int) ≤ i) → h.connections = c :: rest →
      MQTTHandler.replayPacket h i =
        { h with connections :=
            (c.sendToClient
              (((h.storedPackets[i.toNat]?).getD MQTTPacket.default).toRawData)) ::
              rest }) := by
  refine ⟨?_, ?_, ?_, ?_⟩
  · intro h i
    unfold MQTTHandler.replayPacket
    dsimp only
    split
    · rfl
    · split
      · rfl
      · rfl
  · intro h i hi
    simp [MQTTHandler.replayPacket, hi]
  · intro h i hi hc
    simp [MQTTHandler.replayPacket, hi, hc]
  · intro h i c rest hi hc
    simp [MQTTHandler.replayPacket, hi, hc, updateHead, MQTTPacket.toRawData]

/-- Witness for the C8 theorem at an out-of-range index on an empty
store. -/
theorem replayPacket_effect_witness :
    ((MQTTHandler.replayPacket { running := true } 5).storedPackets =
      ({ running := true } : MQTTHandler).storedPackets) ∧
    MQTTHandler.replayPacket { running := true } 5 =
      { running := true, diagnostics := ["Invalid packet index"] } := by
  refine ⟨replayPacket_effect.1 { running := true } 5, ?_⟩
  have h2 := replayPacket_effect.2.1 { running := true } 5 (by norm_num)
  simpa using h2

/-- C8 counterexample: with one stored packet, an in-range index 0 and an
active TLS pair but no plain pair, replayPacket writes nothing anywhere
and only emits a diagnostic, refuting the claim that every in-range index
writes the stored bytes to the client socket of a pair. -/
theorem replayPacket_no_plain_pair_cx :
    MQTTHandler.replayPacket
        { running := true,
          tlsConnections := [{ connected := true, brokerConnected := true }],
          storedPackets := [{ type := 3, data := [0x30, 2, 0, 0] }] } 0 =
      { running := true,
        tlsConnections := [{ connected := true, brokerConnected := true }],
        storedPackets := [{ type := 3, data := [0x30, 2, 0, 0] }],
        diagnostics := ["No active connections to replay packet to"] } ∧
    (0 : Int) < 1 := by
  decide

end mitmqtt
